import Mathlib

/-!
Verification of the gerrit-linter style checker.

Shallow embedding conventions:
* Go strings and byte slices are modelled as `List Char`, one `Char` per byte
  (all data in play is ASCII).
* Go `map` values appear as association lists; parts of the program that talk
  to the network (HTTP fetches, the external formatting tools, posting check
  statuses) are modelled by explicit parameters carrying the outcome of the
  call, so every function here is executable.
* Fallible Go functions returning `(T, error)` become `Except` values.
-/

namespace GerritLinter

/-- One byte as a character; used for bytes that the token scanner of plain
string literals would mangle. -/
def ch (n : Nat) : Char := Char.ofNat n

/-- The newline byte, on which commit messages are split. -/
def nl : Char := ch 10

/-- Go `strings.Split(s, sep)` for a one-byte separator: splits around every
occurrence of `c`; the empty string yields one empty field. -/
def goSplit (s : List Char) (c : Char) : List (List Char) :=
  match s with
  | [] => [[]]
  | x :: xs =>
    if x = c then [] :: goSplit xs c
    else
      match goSplit xs c with
      | [] => [[x]]
      | y :: ys => (x :: y) :: ys

/-- Go `strings.HasSuffix(s, suf)`. -/
def goHasSuffix (s suf : List Char) : Bool := suf.isSuffixOf s

/-- Go `bytes.HasPrefix(l, p)` / `strings.HasPrefix`. -/
def isPre : List Char → List Char → Bool
  | [], _ => true
  | _ :: _, [] => false
  | a :: as, b :: bs => a == b && isPre as bs

/-- Go `bytes.TrimPrefix(s, p)`: drops `p` when it leads `s`, else `s`. -/
def goTrimPre (s p : List Char) : List Char :=
  if isPre p s then s.drop p.length else s

/-- Go `strings.Join(xs, sep)`. -/
def goJoin (sep : List Char) : List (List Char) → List Char
  | [] => []
  | [x] => x
  | x :: xs => x ++ sep ++ goJoin sep xs

/-! ## Commit-message linter (fmt.go, `checkCommitMessage`) -/

def msgMultipleLines : List Char := "must have multiple lines".toList

def msgBlankLine : List Char :=
  "subject and body must be separated by blank line".toList

def msgSubjectTooLong : List Char := "subject must be less than 70 chars".toList

/-- The complaint text `subject must not end in '.'` (apostrophes built
byte-wise). -/
def msgSubjectDot : List Char :=
  "subject must not end in ".toList ++ [ch 39, ch 46, ch 39]

/-- `checkCommitMessage` from fmt.go: split the message on newlines and
return the first matching complaint, or the empty string when compliant. -/
def checkCommitMessage (msg : List Char) : List Char :=
  let lines := goSplit msg nl
  if lines.length < 2 then msgMultipleLines
  else if 1 < (lines.getD 1 []).length then msgBlankLine
  else if 70 < (lines.getD 0 []).length then msgSubjectTooLong
  else if goHasSuffix (lines.getD 0 []) [ch 46] then msgSubjectDot
  else []

/-- Spec-side restatement of the commit-message rules, written from the
claim's words (pattern match on the split lines, rules in the stated order);
compared against `checkCommitMessage`, which is translated from the source. -/
def specCommitComplaint (msg : List Char) : List Char :=
  match goSplit msg nl with
  | l0 :: l1 :: _ =>
    if 1 < l1.length then msgBlankLine
    else if 70 < l0.length then msgSubjectTooLong
    else if goHasSuffix l0 [ch 46] then msgSubjectDot
    else []
  | _ => msgMultipleLines

/-! ## Formatting engine data model (rpc types, used throughout src) -/

/-- `linter.File`: language tag, repository-relative name, raw content. -/
structure File where
  Language : List Char
  Name : List Char
  Content : List Char
deriving DecidableEq

/-- `linter.FormattedFile`: the result record (name, formatted content,
diagnostic message); the embedded `File.Language` field is never read. -/
structure FormattedFile where
  Name : List Char
  Content : List Char
  Message : List Char
deriving DecidableEq

/-- `commitMsgFormatter.Format` from fmt.go: inspects only the first file of
the batch and emits exactly one result record for it (the empty-batch case
is unreachable in the program: callers only dispatch non-empty batches). -/
def commitMsgFormat : List File → List FormattedFile
  | [] => []
  | f :: _ =>
    let complaint := checkCommitMessage f.Content
    if complaint ≠ [] then [⟨f.Name, [], complaint⟩]
    else [⟨f.Name, f.Content, []⟩]

/-! ## File classification (the `Formatters` registry regexes) -/

/-- Regex `\.java$`. -/
def javaMatch (n : List Char) : Bool := goHasSuffix n ".java".toList

/-- Regex `(\.bzl|/BUILD|^BUILD)$`: ends in `.bzl`, ends in `/BUILD`, or is
exactly `BUILD`. -/
def bzlMatch (n : List Char) : Bool :=
  goHasSuffix n ".bzl".toList || goHasSuffix n "/BUILD".toList
    || n == "BUILD".toList

/-- Regex `\.go$`. -/
def goMatch (n : List Char) : Bool := goHasSuffix n ".go".toList

/-- Regex `^/COMMIT_MSG$`. -/
def commitMsgMatch (n : List Char) : Bool := n == "/COMMIT_MSG".toList

/-- The filename-match rule of the `Formatters` registry entry for a
language (`nil` for unregistered languages). -/
def formatterRegex (lang : List Char) : Option (List Char → Bool) :=
  if lang = "java".toList then some javaMatch
  else if lang = "bzl".toList then some bzlMatch
  else if lang = "go".toList then some goMatch
  else if lang = "commitmsg".toList then some commitMsgMatch
  else none

/-- The gerrit `Query` fragment of each registry entry (empty for
commitmsg, whose entry sets no query). -/
def formatterQuery (lang : List Char) : Option (List Char) :=
  if lang = "java".toList then some "ext:java".toList
  else if lang = "bzl".toList then
    some "(ext:bzl OR file:BUILD OR file:WORKSPACE)".toList
  else if lang = "go".toList then some "ext:go".toList
  else if lang = "commitmsg".toList then some []
  else none

/-- The registered language tags (the keys of `Formatters`, listed in sorted
order as `SupportedLanguages` yields them). -/
def registeredLangs : List (List Char) :=
  ["bzl".toList, "commitmsg".toList, "go".toList, "java".toList]

/-- The languages whose registry rule matches a filename, enumerated in the
order of `registeredLangs`. -/
def matchingLangs (n : List Char) : List (List Char) :=
  registeredLangs.filter fun l =>
    match formatterRegex l with
    | some rx => rx n
    | none => false

/-! ## Gerrit response envelope (gerrit/types.go `Unmarshal`) -/

/-- The four-byte anti-XSS body marker `)]}'`. -/
def jsonPreL : List Char := [ch 41, ch 93, ch 125, ch 39]

/-- `gerrit.Unmarshal`: requires the anti-XSS marker, echoes at most 100
bytes of an offending body in the error, else strips the marker and hands
the remainder to the JSON decoder (modelled as returning those bytes). -/
def Unmarshal (content : List Char) : Except (List Char) (List Char) :=
  if isPre jsonPreL content then .ok (goTrimPre content jsonPreL)
  else .error (if 100 < content.length then content.take 100 else content)

/-! ## Serve-loop message truncation (checker.go `executeCheck`) -/

/-- The truncation applied to the joined per-file message before the
terminal status post: over 1000 bytes, keep 995 and append `...`. -/
def truncateMsg (m : List Char) : List Char :=
  if 1000 < m.length then m.take 995 ++ "...".toList else m

/-! ## SHA-1 (crypto/sha1, as used by `PostChecker`) and checker UUIDs -/

/-- `2^32`, the word modulus of SHA-1. -/
def w32 : Nat := 4294967296

/-- Rotate the 32-bit word `x` left by `n` bits. -/
def rotl (n x : Nat) : Nat := ((x <<< n) % w32) ||| (x >>> (32 - n))

/-- `k` bytes of `n`, big-endian. -/
def toBE : Nat → Nat → List Nat
  | 0, _ => []
  | k + 1, n => ((n >>> (8 * k)) % 256) :: toBE k n

/-- SHA-1 padding: append `0x80`, zeros to 56 mod 64, then the bit length
as 8 big-endian bytes. -/
def sha1pad (msg : List Nat) : List Nat :=
  let l := msg.length
  let k := (120 - (l + 1) % 64) % 64
  msg ++ 128 :: List.replicate k 0 ++ toBE 8 (l * 8)

/-- Split a byte string into 64-byte blocks. -/
def chunks64 (l : List Nat) : List (List Nat) :=
  if h : l = [] then []
  else l.take 64 :: chunks64 (l.drop 64)
termination_by l.length
decreasing_by
  have h0 : 0 < l.length := List.length_pos.mpr h
  simp only [List.length_drop]
  omega

/-- Big-endian 32-bit words from bytes. -/
def beWords : List Nat → List Nat
  | a :: b :: c :: d :: rest => (((a * 256 + b) * 256 + c) * 256 + d) :: beWords rest
  | _ => []

/-- Extend the 16 block words to the 80 schedule words. -/
def extendW (ws : List Nat) : List Nat :=
  (List.range 64).foldl
    (fun w _ =>
      let n := w.length
      w ++ [rotl 1 ((w.getD (n - 3) 0) ^^^ (w.getD (n - 8) 0)
        ^^^ (w.getD (n - 14) 0) ^^^ (w.getD (n - 16) 0))])
    ws

/-- The five SHA-1 chaining words. -/
structure Sha1State where
  h0 : Nat
  h1 : Nat
  h2 : Nat
  h3 : Nat
  h4 : Nat

def sha1Init : Sha1State :=
  ⟨0x67452301, 0xEFCDAB89, 0x98BADCFE, 0x10325476, 0xC3D2E1F0⟩

/-- The SHA-1 round function. -/
def sha1F (t b c d : Nat) : Nat :=
  if t < 20 then (b &&& c) ||| (((w32 - 1) ^^^ b) &&& d)
  else if t < 40 then b ^^^ c ^^^ d
  else if t < 60 then (b &&& c) ||| (b &&& d) ||| (c &&& d)
  else b ^^^ c ^^^ d

/-- The SHA-1 round constants. -/
def sha1K (t : Nat) : Nat :=
  if t < 20 then 0x5A827999
  else if t < 40 then 0x6ED9EBA1
  else if t < 60 then 0x8F1BBCDC
  else 0xCA62C1D6

/-- One 64-byte block of the SHA-1 compression function. -/
def processChunk (st : Sha1State) (chunk : List Nat) : Sha1State :=
  let w := extendW (beWords chunk)
  let res := (List.range 80).foldl
    (fun (p : Nat × Nat × Nat × Nat × Nat) t =>
      let (a, b, c, d, e) := p
      let tmp := (rotl 5 a + sha1F t b c d + e + sha1K t + w.getD t 0) % w32
      (tmp, a, rotl 30 b, c, d))
    (st.h0, st.h1, st.h2, st.h3, st.h4)
  match res with
  | (a, b, c, d, e) =>
    ⟨(st.h0 + a) % w32, (st.h1 + b) % w32, (st.h2 + c) % w32,
      (st.h3 + d) % w32, (st.h4 + e) % w32⟩

/-- The 20 digest bytes of a final state. -/
def digestBytes (s : Sha1State) : List Nat :=
  toBE 4 s.h0 ++ toBE 4 s.h1 ++ toBE 4 s.h2 ++ toBE 4 s.h3 ++ toBE 4 s.h4

/-- `sha1.Sum` over a byte string. -/
def sha1 (msg : List Nat) : List Nat :=
  digestBytes ((chunks64 (sha1pad msg)).foldl processChunk sha1Init)

/-- One lowercase hex digit (inputs are always below 16; the catch-all keeps
the function total). -/
def hexDigit (n : Nat) : Char :=
  match n with
  | 0 => '0' | 1 => '1' | 2 => '2' | 3 => '3'
  | 4 => '4' | 5 => '5' | 6 => '6' | 7 => '7'
  | 8 => '8' | 9 => '9' | 10 => 'a' | 11 => 'b'
  | 12 => 'c' | 13 => 'd' | 14 => 'e' | 15 => 'f'
  | _ => '0'

/-- The sixteen lowercase hex characters. -/
def hexAlphabet : List Char := "0123456789abcdef".toList

/-- Go `fmt` verb `%x` on a byte slice: two lowercase hex digits per byte. -/
def goHex : List Nat → List Char
  | [] => []
  | b :: bs => hexDigit (b / 16) :: hexDigit (b % 16) :: goHex bs

/-- The checker scheme literal `fmt`. -/
def checkerScheme : List Char := "fmt".toList

/-- The hex digest of a repository name, as `PostChecker` renders it. -/
def repoDigest (repo : List Char) : List Char :=
  goHex (sha1 (repo.map Char.toNat))

/-- The checker UUID computed by `PostChecker`:
`fmt.Sprintf("%s:%s-%x", checkerScheme, language, sha1(repo))`. -/
def postCheckerUUID (repo language : List Char) : List Char :=
  checkerScheme ++ [ch 58] ++ language ++ [ch 45] ++ repoDigest repo

/-- `checkerLanguage`: strip the `fmt:` scheme, split on `-`, require
exactly two fields, return the first. -/
def checkerLanguage (uuid : List Char) : Option (List Char) :=
  let u := goTrimPre uuid (checkerScheme ++ [ch 58])
  let fields := goSplit u (ch 45)
  if fields.length = 2 then some (fields.getD 0 []) else none

/-! ## Top-level `Format` (fmt.go), parametric in the per-language adapters

An adapter stands for `entry.Formatter.Format(fs, &buf)`: it returns either
the per-file results together with whatever was written to the output sink,
or an error. -/

/-- The type of a per-language formatter adapter call. -/
abbrev Adapter := List Char → List File → Except (List Char) (List FormattedFile × List Char)

/-- `splitByLang`: group the request files by language tag. Go iterates the
resulting map in unspecified order; this embedding fixes the order of first
occurrence, which preserves the per-group file order of the source. -/
def langsOf (fs : List File) : List (List Char) :=
  fs.foldl (fun acc f => if f.Language ∈ acc then acc else acc ++ [f.Language]) []

def splitByLang (fs : List File) : List (List Char × List File) :=
  (langsOf fs).map fun l => (l, fs.filter fun f => f.Language = l)

/-- Errors of the top-level `Format` call. -/
inductive FmtErr where
  | emptyLanguage (name : List Char)
  | adapter (e : List Char)
deriving DecidableEq

/-- After a group returns, `Format` copies the sink contents into the first
result's message if that message is empty. -/
def setGroupMessage (out : List FormattedFile) (buf : List Char) : List FormattedFile :=
  match out with
  | [] => []
  | f :: rest => if f.Message = [] then ⟨f.Name, f.Content, buf⟩ :: rest else f :: rest

/-- The per-group dispatch loop of `Format`: run each group's adapter in
turn, abort on the first error, otherwise append the group's results. -/
def runGroups (adapters : Adapter) : List (List Char × List File) → Except FmtErr (List FormattedFile)
  | [] => .ok []
  | (lang, fs) :: rest =>
    match adapters lang fs with
    | .error e => .error (.adapter e)
    | .ok (out, buf) =>
      match runGroups adapters rest with
      | .error e => .error e
      | .ok more => .ok (setGroupMessage out buf ++ more)

/-- `Format(req, rep)` from fmt.go: reject any file with an empty language
tag up front, then dispatch the language groups. -/
def Format (adapters : Adapter) (files : List File) : Except FmtErr (List FormattedFile) :=
  match files.find? (fun f => f.Language.isEmpty) with
  | some f => .error (.emptyLanguage f.Name)
  | none => runGroups adapters (splitByLang files)

/-- The reply produced for one group whose adapter succeeded. -/
def groupOut (adapters : Adapter) (p : List Char × List File) : List FormattedFile :=
  match adapters p.1 p.2 with
  | .ok (o, b) => setGroupMessage o b
  | .error _ => []

/-- Concatenation of all groups' results, in group order. -/
def goodGroupsOut (adapters : Adapter) : List (List Char × List File) → List FormattedFile
  | [] => []
  | p :: rest => groupOut adapters p ++ goodGroupsOut adapters rest

/-! ## `checkChange` and the check state machine (checker.go) -/

/-- The relevant fields of `gerrit.File` (per-file entry of a change). -/
structure GFile where
  Status : List Char
  Content : List Char
deriving DecidableEq

/-- `gerrit.Change`: the files of one (change, patchset), keyed by name. -/
structure GChange where
  Files : List (List Char × GFile)
deriving DecidableEq

/-- The error outcomes of `checkChange`, with the distinguished
`errIrrelevant` marker value kept apart from real failures. -/
inductive ChkErr where
  | irrelevant
  | notConfigured (lang : List Char)
  | fetchFail (e : List Char)
  | formatFail (e : List Char)
  | unknownFile (name : List Char)
deriving DecidableEq

/-- The error text each `ChkErr` renders to (`%q` quoting shown as plain
double quotes). -/
def renderChkErr : ChkErr → List Char
  | .irrelevant => "irrelevant".toList
  | .notConfigured l => "language ".toList ++ [ch 34] ++ l ++ [ch 34] ++ " not configured".toList
  | .fetchFail e => e
  | .formatFail e => e
  | .unknownFile n => "result had unknown file ".toList ++ [ch 34] ++ n ++ [ch 34]

/-- The file-collection loop of `checkChange`: for every file of the change,
check that the language is configured, keep the files its rule matches. -/
def buildReq (language : List Char) : List (List Char × GFile) → Except ChkErr (List File)
  | [] => .ok []
  | (n, f) :: rest =>
    match formatterRegex language with
    | none => .error (.notConfigured language)
    | some rx =>
      if rx n then
        match buildReq language rest with
        | .error e => .error e
        | .ok more => .ok (⟨language, n, f.Content⟩ :: more)
      else buildReq language rest

/-- The comparison loop of `checkChange`: look every reply file up among the
change's files, and collect a `<file>: <message>` complaint for each file
whose formatted content differs from the submitted content. -/
def collectMsgs (files : List (List Char × GFile)) : List FormattedFile → Except ChkErr (List (List Char))
  | [] => .ok []
  | f :: rest =>
    match files.lookup f.Name with
    | none => .error (.unknownFile f.Name)
    | some orig =>
      match collectMsgs files rest with
      | .error e => .error e
      | .ok more =>
        if f.Content ≠ orig.Content then
          .ok ((f.Name ++ ": ".toList
            ++ (if f.Message = [] then "found a difference".toList else f.Message)) :: more)
        else .ok more

/-- `checkChange(changeID, psID, language)`, given the outcome of the
`GetChange` fetch and the formatting call (`doFormat` stands for
`linter.Format`, which runs external tools). -/
def checkChange (doFormat : List File → Except (List Char) (List FormattedFile))
    (fetchRes : Except (List Char) GChange) (language : List Char) :
    Except ChkErr (List (List Char)) :=
  match fetchRes with
  | .error e => .error (.fetchFail e)
  | .ok chg =>
    match buildReq language chg.Files with
    | .error e => .error e
    | .ok reqFiles =>
      if reqFiles.isEmpty then .error .irrelevant
      else
        match doFormat reqFiles with
        | .error e => .error (.formatFail e)
        | .ok repFiles => collectMsgs chg.Files repFiles

/-- The check states of checker.go. -/
inductive Status where
  | unset
  | running
  | fail
  | successful
  | irrelevant
deriving DecidableEq

/-- `status.String()`. -/
def statusString : Status → List Char
  | .unset => "UNSET".toList
  | .running => "RUNNING".toList
  | .fail => "FAILED".toList
  | .successful => "SUCCESSFUL".toList
  | .irrelevant => "IRRELEVANT".toList

/-- How `executeCheck` maps a `checkChange` outcome to the terminal status
and message list: `errIrrelevant` short-circuits to IRRELEVANT, any other
error becomes FAILED with a `tool failure:` message, no complaints is
SUCCESSFUL, any complaint is FAILED. -/
def checkResultStatus : Except ChkErr (List (List Char)) → Status × List (List Char)
  | .error .irrelevant => (.irrelevant, [])
  | .error e => (.fail, ["tool failure: ".toList ++ renderChkErr e])
  | .ok [] => (.successful, [])
  | .ok msgs => (.fail, msgs)

/-- The message posted with the terminal status: complaints joined with
`", "`, then truncated. -/
def terminalMessage (msgs : List (List Char)) : List Char :=
  truncateMsg (goJoin ", ".toList msgs)

/-- The per-UUID terminal post of `executeCheck`, or `none` when
`checkerLanguage` rejects the UUID (which aborts with no terminal post). -/
def termStatusFor (doFormat : List File → Except (List Char) (List FormattedFile))
    (fetchRes : Except (List Char) GChange) (uuid : List Char) :
    Option (Status × List Char) :=
  match checkerLanguage uuid with
  | none => none
  | some lang =>
    let r := checkResultStatus (checkChange doFormat fetchRes lang)
    some (r.1, terminalMessage r.2)

/-- The sequence of `PostCheck` attempts `executeCheck` makes for one
pending check, as (uuid, state) events. `ok k` tells whether the `k`-th
post attempt succeeds; a failed post (or a UUID with an unparsable
language) aborts the remaining processing. -/
def execTrace (doFormat : List File → Except (List Char) (List FormattedFile))
    (fetchRes : Except (List Char) GChange) (ok : Nat → Bool) :
    List (List Char) → Nat → List (List Char × Status)
  | [], _ => []
  | u :: rest, k =>
    (u, .running) ::
      (if ok k then
        match termStatusFor doFormat fetchRes u with
        | none => []
        | some (st, _) =>
          (u, st) :: (if ok (k + 1) then execTrace doFormat fetchRes ok rest (k + 2) else [])
      else [])

/-! ## Cloud-metadata bearer tokens (gcp.go `tokenCache`) -/

/-- The token as it comes from the metadata service. -/
structure GcpToken where
  AccessToken : List Char
  ExpiresIn : Int
  TokenType : List Char
deriving DecidableEq

def noTokenMsg : List Char := "no token".toList

/-- `tokenCache.Authenticate`: error when no token is cached, else sign
with the bearer header value. -/
def authenticate (cur : Option GcpToken) : Except (List Char) (List Char) :=
  match cur with
  | none => .error noTokenMsg
  | some t => .ok ("Bearer ".toList ++ t.AccessToken)

/-- One iteration of `tokenCache.loop`, given the fetch outcome: the fetch
result is stored unconditionally (`tc.current = tok`, which is nil after a
failed fetch), and the next delay is 2 seconds after a failure, else
`expires_in - 1`. -/
def refreshStep (_cur : Option GcpToken) (fetchRes : Option GcpToken) :
    Option GcpToken × Int :=
  match fetchRes with
  | none => (none, 2)
  | some tok => (some tok, tok.ExpiresIn - 1)

/-- The refresh loop run over a list of successive fetch outcomes. -/
def tokenLoop : Option GcpToken × Int → List (Option GcpToken) → Option GcpToken × Int
  | st, [] => st
  | st, r :: rs => tokenLoop (refreshStep st.1 r) rs

/-! ## Concrete inputs used by the witness theorems -/

/-- `"Fix bug.\n\nDetails"`. -/
def exDot : List Char := "Fix bug.".toList ++ [nl, nl] ++ "Details".toList

/-- `"Fix bug\nnope\n\nDetails"`. -/
def exNoBlank : List Char :=
  "Fix bug".toList ++ [nl] ++ "nope".toList ++ [nl, nl] ++ "Details".toList

/-- A single-line commit message. -/
def exSingle : List Char := "Fix bug".toList

/-- `"Fix bug\n\nDetails"`, a compliant commit message. -/
def exCompliant : List Char := "Fix bug".toList ++ [nl, nl] ++ "Details".toList

/-- A 1001-byte message, long enough to be truncated. -/
def exLongMsg : List Char := List.replicate 1001 'a'

/-- An adapter that formats every file to its submitted content. -/
def demoAdapterOk : Adapter :=
  fun _lang fs => .ok (fs.map (fun f => ⟨f.Name, f.Content, []⟩), [])

/-- An adapter that always fails, standing for a tool with non-zero exit. -/
def demoAdapterErr : Adapter := fun _ _ => .error "exit status 1".toList

/-- A one-file go request. -/
def demoGoFiles : List File := [⟨"go".toList, "a.go".toList, "x".toList⟩]

/-- A request whose second file carries an empty language tag. -/
def demoBadFiles : List File :=
  [⟨"go".toList, "a.go".toList, "x".toList⟩, ⟨[], "b.txt".toList, "y".toList⟩]

/-- A fetched change containing one file no go rule matches. -/
def demoChange : GChange := ⟨[("Readme.md".toList, ⟨[], "x".toList⟩)]⟩

/-- A formatting call outcome used where the formatter must not matter. -/
def demoFormat : List File → Except (List Char) (List FormattedFile) :=
  fun _ => .ok []

/-- A second, observably different formatting call outcome. -/
def demoFormatErr : List File → Except (List Char) (List FormattedFile) :=
  fun _ => .error "down".toList

/-- A well-formed checker UUID for the go language. -/
def demoUuid : List Char := "fmt:go-3b97070d46ccd66422a8e7b83e6967ed84780538".toList

/-- A bearer token as initially fetched. -/
def demoToken : GcpToken := ⟨"tokenA".toList, 3600, "Bearer".toList⟩

/-- A bearer token delivered by a later successful refresh. -/
def demoToken2 : GcpToken := ⟨"tokenB".toList, 1800, "Bearer".toList⟩

/-! ## Helper lemmas -/

theorem goSplit_ne_nil (s : List Char) (c : Char) : goSplit s c ≠ [] := by
  cases s with
  | nil => simp [goSplit]
  | cons x xs =>
    unfold goSplit
    by_cases hx : x = c
    · simp [hx]
    · simp only [if_neg hx]
      cases goSplit xs c <;> simp

theorem goSplit_no_sep (s : List Char) (c : Char) (h : c ∉ s) :
    goSplit s c = [s] := by
  induction s with
  | nil => rfl
  | cons x xs ih =>
    have hx : ¬ x = c := fun hxc => h (hxc ▸ List.mem_cons_self x xs)
    have hxs : c ∉ xs := fun hm => h (List.mem_cons_of_mem x hm)
    unfold goSplit
    rw [if_neg hx, ih hxs]

theorem goSplit_append (a b : List Char) (c : Char) (h : c ∉ a) :
    goSplit (a ++ c :: b) c = a :: goSplit b c := by
  induction a with
  | nil => simp [goSplit]
  | cons x xs ih =>
    have hx : ¬ x = c := fun hxc => h (hxc ▸ List.mem_cons_self x xs)
    have hxs : c ∉ xs := fun hm => h (List.mem_cons_of_mem x hm)
    simp [goSplit, hx, ih hxs]

theorem isPre_append (p l : List Char) : isPre p (p ++ l) = true := by
  induction p with
  | nil => rfl
  | cons x xs ih => simp [isPre, ih]

theorem goTrimPre_append (p l : List Char) : goTrimPre (p ++ l) p = l := by
  unfold goTrimPre
  rw [isPre_append]
  simp

theorem toBE_length (k n : Nat) : (toBE k n).length = k := by
  induction k generalizing n with
  | zero => rfl
  | succ m ih => simp [toBE, ih]

theorem digestBytes_length (s : Sha1State) : (digestBytes s).length = 20 := by
  simp [digestBytes, toBE_length]

theorem sha1_length (m : List Nat) : (sha1 m).length = 20 := by
  unfold sha1
  exact digestBytes_length _

theorem goHex_length (bs : List Nat) : (goHex bs).length = 2 * bs.length := by
  induction bs with
  | nil => rfl
  | cons b t ih => simp [goHex, ih]; omega

theorem hexDigit_mem (n : Nat) : hexDigit n ∈ hexAlphabet := by
  unfold hexDigit
  split <;> decide

theorem goHex_mem (bs : List Nat) (c : Char) (h : c ∈ goHex bs) :
    c ∈ hexAlphabet := by
  induction bs with
  | nil => simp [goHex] at h
  | cons b t ih =>
    simp only [goHex, List.mem_cons] at h
    rcases h with h | h | h
    · exact h ▸ hexDigit_mem _
    · exact h ▸ hexDigit_mem _
    · exact ih h

theorem repoDigest_length (R : List Char) : (repoDigest R).length = 40 := by
  unfold repoDigest
  rw [goHex_length, sha1_length]

theorem repoDigest_mem (R : List Char) (c : Char) (h : c ∈ repoDigest R) :
    c ∈ hexAlphabet := goHex_mem _ _ h

theorem dash_not_mem_repoDigest (R : List Char) : ch 45 ∉ repoDigest R := by
  intro h
  have := repoDigest_mem R _ h
  revert this
  decide

/-! ## C1: the commit-message linter rules -/

/-- C1: the commit-message linter, given one commit message, applies exactly
the four rules in the claimed order (restated by `specCommitComplaint`,
which was written from the spec's words), short-circuiting on the first
match; when no rule matches, the adapter's result echoes the original
content with no message. -/
theorem checkCommitMessage_spec (msg : List Char) (f : File) (rest : List File) :
    checkCommitMessage msg = specCommitComplaint msg
    ∧ (checkCommitMessage msg = [] → f.Content = msg →
        commitMsgFormat (f :: rest) = [⟨f.Name, msg, []⟩]) := by
  constructor
  · unfold checkCommitMessage specCommitComplaint
    have h1 := goSplit_ne_nil msg nl
    rcases h : goSplit msg nl with _ | ⟨l0, _ | ⟨l1, tl⟩⟩
    · exact absurd h h1
    · simp
    · simp
  · intro hc hf
    unfold commitMsgFormat
    simp [hf, hc]

/-- C1 witness: the four concrete behaviours listed in the spec, the last
one (the compliant message, echoed unchanged) via `checkCommitMessage_spec`. -/
theorem checkCommitMessage_spec_instance :
    checkCommitMessage exDot = msgSubjectDot
    ∧ checkCommitMessage exNoBlank = msgBlankLine
    ∧ checkCommitMessage exSingle = msgMultipleLines
    ∧ checkCommitMessage exCompliant = []
    ∧ commitMsgFormat [⟨"commitmsg".toList, "/COMMIT_MSG".toList, exCompliant⟩]
        = [⟨"/COMMIT_MSG".toList, exCompliant, []⟩] := by
  refine ⟨by decide, by decide, by decide, by decide, ?_⟩
  exact (checkCommitMessage_spec exCompliant
    ⟨"commitmsg".toList, "/COMMIT_MSG".toList, exCompliant⟩ []).2 (by decide) rfl

/-! ## C2: the deterministic checker-UUID registration scheme -/

/-- C2: for a registered language `L` (none of which contains a dash) and
any repository `R`, the UUID registered by `PostChecker` is
`fmt:L-<hex sha1(R)>` with a 40-character lowercase-hex digest;
`checkerLanguage` recovers exactly `L` from it; and the digest depends only
on `R`, so re-registration with the same repository is idempotent. -/
theorem postChecker_uuid_spec (L R : List Char) (hL : ch 45 ∉ L) :
    postCheckerUUID R L
      = checkerScheme ++ [ch 58] ++ L ++ [ch 45] ++ repoDigest R
    ∧ (repoDigest R).length = 40
    ∧ (∀ c ∈ repoDigest R, c ∈ hexAlphabet)
    ∧ checkerLanguage (postCheckerUUID R L) = some L
    ∧ (∀ R2, R2 = R → repoDigest R2 = repoDigest R)
    ∧ (∀ l ∈ registeredLangs, ch 45 ∉ l) := by
  refine ⟨rfl, repoDigest_length R, fun c hc => repoDigest_mem R c hc, ?_, ?_, by decide⟩
  · have huuid :
        postCheckerUUID R L
          = (checkerScheme ++ [ch 58]) ++ (L ++ ch 45 :: repoDigest R) := by
      simp [postCheckerUUID, List.append_assoc]
    unfold checkerLanguage
    rw [huuid, goTrimPre_append]
    show (if (goSplit (L ++ ch 45 :: repoDigest R) (ch 45)).length = 2
        then some ((goSplit (L ++ ch 45 :: repoDigest R) (ch 45)).getD 0 [])
        else none) = some L
    rw [goSplit_append L (repoDigest R) (ch 45) hL,
      goSplit_no_sep (repoDigest R) (ch 45) (dash_not_mem_repoDigest R)]
    simp
  · intro R2 h
    rw [h]

/-- C2 witness: the scheme evaluated for language `go` and repository
`gerrit`, via `postChecker_uuid_spec`. -/
theorem postChecker_uuid_spec_instance :
    (repoDigest "gerrit".toList).length = 40
    ∧ checkerLanguage (postCheckerUUID "gerrit".toList "go".toList)
        = some "go".toList := by
  have h := postChecker_uuid_spec "go".toList "gerrit".toList (by decide)
  exact ⟨h.2.1, h.2.2.2.1⟩

/-! ## C3: the anti-XSS response envelope -/

/-- C3: `Unmarshal` fails on any body lacking the `)]}'` marker, echoing at
most its first 100 bytes; on a marked body it strips exactly the marker, so
prefixing any document and decoding returns that document. -/
theorem unmarshal_spec (B D : List Char) :
    (isPre jsonPreL B = false →
      Unmarshal B = .error (B.take 100) ∧ (B.take 100).length ≤ 100)
    ∧ Unmarshal (jsonPreL ++ D) = .ok D := by
  constructor
  · intro h
    refine ⟨?_, by simp⟩
    unfold Unmarshal
    rw [h]
    simp only [Bool.false_eq_true, if_false]
    by_cases hlen : 100 < B.length
    · rw [if_pos hlen]
    · rw [if_neg hlen]
      rw [List.take_of_length_le (by omega)]
  · unfold Unmarshal
    rw [isPre_append, goTrimPre_append]
    simp

/-- C3 witness: a body without the marker is rejected with itself as the
echo, and a marked JSON document round-trips, via `unmarshal_spec`. -/
theorem unmarshal_spec_instance :
    Unmarshal "oops".toList = .error "oops".toList
    ∧ Unmarshal (jsonPreL ++ "[]".toList) = .ok "[]".toList := by
  have h := unmarshal_spec "oops".toList "[]".toList
  exact ⟨by rw [(h.1 (by decide)).1]; rfl, h.2⟩

/-! ## C4: terminal-message truncation -/

/-- C4: the message posted with a terminal status is the joined message
itself when its length is at most 1000; above 1000 it is the first 995
bytes followed by `...` (length 998); in every case it is at most 1000
bytes long. -/
theorem truncateMsg_spec (m : List Char) :
    (1000 < m.length →
      truncateMsg m = m.take 995 ++ "...".toList ∧ (truncateMsg m).length = 998)
    ∧ (m.length ≤ 1000 → truncateMsg m = m)
    ∧ (truncateMsg m).length ≤ 1000 := by
  refine ⟨fun h => ⟨?_, ?_⟩, fun h => ?_, ?_⟩
  · unfold truncateMsg
    rw [if_pos h]
  · have h3 : ("...".toList).length = 3 := rfl
    unfold truncateMsg
    rw [if_pos h, List.length_append, List.length_take, h3]
    omega
  · unfold truncateMsg
    rw [if_neg (by omega)]
  · have h3 : ("...".toList).length = 3 := rfl
    unfold truncateMsg
    by_cases h : 1000 < m.length
    · rw [if_pos h, List.length_append, List.length_take, h3]
      omega
    · rw [if_neg h]
      omega

/-- C4 witness: a 1001-byte joined message is truncated to 998 bytes, the
995-byte head plus `...`, via `truncateMsg_spec`. -/
theorem truncateMsg_spec_instance :
    truncateMsg exLongMsg = exLongMsg.take 995 ++ "...".toList
    ∧ (truncateMsg exLongMsg).length = 998 := by
  exact (truncateMsg_spec exLongMsg).1
    (by simp only [exLongMsg, List.length_replicate]; omega)

/-! ## C5: file classification -/

/-- C5: the classification outcomes, evaluated on the code's registry
rules. The spec's examples `a/BUILD`, `pkg/x.go`, `/COMMIT_MSG` and
`Readme.md` classify as claimed, but the bzl rule
`(\.bzl|/BUILD|^BUILD)$` never matches a `WORKSPACE` file — even though
the registered gerrit query fragment advertises `file:WORKSPACE` — so a
file named `WORKSPACE` belongs to no language group. -/
theorem classification_eval :
    matchingLangs "a/BUILD".toList = ["bzl".toList]
    ∧ matchingLangs "pkg/x.go".toList = ["go".toList]
    ∧ matchingLangs "/COMMIT_MSG".toList = ["commitmsg".toList]
    ∧ matchingLangs "Readme.md".toList = []
    ∧ bzlMatch "WORKSPACE".toList = false
    ∧ matchingLangs "WORKSPACE".toList = []
    ∧ matchingLangs "a/WORKSPACE".toList = []
    ∧ formatterQuery "bzl".toList
        = some "(ext:bzl OR file:BUILD OR file:WORKSPACE)".toList := by
  decide

/-! ## C6: top-level `Format` dispatch -/

theorem runGroups_ok (adapters : Adapter) (gs : List (List Char × List File))
    (h : ∀ p ∈ gs, ∃ r, adapters p.1 p.2 = .ok r) :
    runGroups adapters gs = .ok (goodGroupsOut adapters gs) := by
  induction gs with
  | nil => rfl
  | cons p rest ih =>
    obtain ⟨lang, fs⟩ := p
    obtain ⟨⟨out, buf⟩, hr⟩ := h (lang, fs) (List.mem_cons_self _ _)
    have hrest := ih fun q hq => h q (List.mem_cons_of_mem _ hq)
    simp [runGroups, goodGroupsOut, groupOut, hr, hrest]

theorem runGroups_error (adapters : Adapter) (gs : List (List Char × List File))
    (h : ∃ p ∈ gs, ∃ e, adapters p.1 p.2 = .error e) :
    ∃ e, runGroups adapters gs = .error (.adapter e)
      ∧ ∃ p ∈ gs, adapters p.1 p.2 = .error e := by
  induction gs with
  | nil => simp at h
  | cons p rest ih =>
    obtain ⟨lang, fs⟩ := p
    cases ha : adapters lang fs with
    | error e =>
      exact ⟨e, by simp [runGroups, ha], (lang, fs), List.mem_cons_self _ _, ha⟩
    | ok r =>
      obtain ⟨out, buf⟩ := r
      have h2 : ∃ p ∈ rest, ∃ e, adapters p.1 p.2 = .error e := by
        obtain ⟨q, hq, e, he⟩ := h
        rcases List.mem_cons.mp hq with rfl | hq2
        · rw [ha] at he
          simp at he
        · exact ⟨q, hq2, e, he⟩
      obtain ⟨e, hrun, q, hq, he⟩ := ih h2
      exact ⟨e, by simp [runGroups, ha, hrun], q, List.mem_cons_of_mem _ hq, he⟩

/-- C6: `Format` fails fast with the empty-language error of the first
offending file whenever any request file has an empty language tag — for
every adapter set alike, so no adapter is invoked; when all tags are
non-empty, one erroring language group makes the whole call return that
group's error with no results; when every group succeeds, the reply is the
concatenation of all groups' results. -/
theorem format_dispatch_spec (adapters adapters2 : Adapter) (files : List File) :
    ((∃ f ∈ files, f.Language = []) →
      ∃ g ∈ files, g.Language = []
        ∧ Format adapters files = .error (.emptyLanguage g.Name)
        ∧ Format adapters files = Format adapters2 files)
    ∧ ((∀ f ∈ files, f.Language ≠ []) →
        (∃ p ∈ splitByLang files, ∃ e, adapters p.1 p.2 = .error e) →
        ∃ e, Format adapters files = .error (.adapter e)
          ∧ ∃ p ∈ splitByLang files, adapters p.1 p.2 = .error e)
    ∧ ((∀ f ∈ files, f.Language ≠ []) →
        (∀ p ∈ splitByLang files, ∃ r, adapters p.1 p.2 = .ok r) →
        Format adapters files = .ok (goodGroupsOut adapters (splitByLang files))) := by
  refine ⟨fun hf => ?_, fun hne hex => ?_, fun hne hok => ?_⟩
  · have hsome : (files.find? fun f => f.Language.isEmpty).isSome := by
      rw [List.find?_isSome]
      obtain ⟨f, hfm, hfe⟩ := hf
      exact ⟨f, hfm, by simp [hfe]⟩
    obtain ⟨g, hg⟩ := Option.isSome_iff_exists.mp hsome
    have hmem := List.mem_of_find?_eq_some hg
    have hprop := List.find?_some hg
    simp only [List.isEmpty_iff] at hprop
    refine ⟨g, hmem, hprop, ?_, ?_⟩
    · unfold Format
      rw [hg]
    · unfold Format
      rw [hg]
  · have hfind : (files.find? fun f => f.Language.isEmpty) = none := by
      rw [List.find?_eq_none]
      intro x hx
      simp [hne x hx]
    have := runGroups_error adapters (splitByLang files) hex
    unfold Format
    rw [hfind]
    exact this
  · have hfind : (files.find? fun f => f.Language.isEmpty) = none := by
      rw [List.find?_eq_none]
      intro x hx
      simp [hne x hx]
    have := runGroups_ok adapters (splitByLang files) hok
    unfold Format
    rw [hfind]
    exact this

/-- C6 witness: the three behaviours of `format_dispatch_spec` at concrete
requests — an empty-language file rejected up front, an erroring adapter
aborting the call, and a clean request answered with the group results. -/
theorem format_dispatch_spec_instance :
    Format demoAdapterOk demoBadFiles
      = .error (.emptyLanguage "b.txt".toList)
    ∧ (∃ e, Format demoAdapterErr demoGoFiles = .error (.adapter e))
    ∧ Format demoAdapterOk demoGoFiles
        = .ok [⟨"a.go".toList, "x".toList, []⟩] := by
  refine ⟨?_, ?_, ?_⟩
  · obtain ⟨g, hmem, hlang, hfmt, _⟩ :=
      (format_dispatch_spec demoAdapterOk demoAdapterOk demoBadFiles).1
        ⟨⟨[], "b.txt".toList, "y".toList⟩, by decide, rfl⟩
    simp only [demoBadFiles, List.mem_cons, List.not_mem_nil, or_false] at hmem
    rcases hmem with rfl | rfl
    · exact absurd hlang (by decide)
    · exact hfmt
  · obtain ⟨e, hfmt, _⟩ :=
      (format_dispatch_spec demoAdapterErr demoAdapterErr demoGoFiles).2.1
        (by decide)
        ⟨("go".toList, demoGoFiles), by decide, "exit status 1".toList, rfl⟩
    exact ⟨e, hfmt⟩
  · have hok : ∀ p ∈ splitByLang demoGoFiles, ∃ r, demoAdapterOk p.1 p.2 = .ok r := by
      intro p hp
      rw [show splitByLang demoGoFiles = [("go".toList, demoGoFiles)] from by decide] at hp
      rw [List.mem_singleton.mp hp]
      exact ⟨_, rfl⟩
    exact ((format_dispatch_spec demoAdapterOk demoAdapterOk demoGoFiles).2.2
      (by decide) hok).trans rfl

/-! ## C7: the IRRELEVANT short-circuit -/

theorem buildReq_nomatch (language : List Char) (rx : List Char → Bool)
    (hrx : formatterRegex language = some rx)
    (files : List (List Char × GFile)) (h : ∀ p ∈ files, rx p.1 = false) :
    buildReq language files = .ok [] := by
  induction files with
  | nil => rfl
  | cons p rest ih =>
    obtain ⟨n, f⟩ := p
    have hn : rx n = false := h (n, f) (List.mem_cons_self _ _)
    have hrest := ih fun q hq => h q (List.mem_cons_of_mem _ hq)
    simp [buildReq, hrx, hn, hrest]

/-- C7: a pending check whose change has no file matching the checker
language's rule short-circuits: `checkChange` returns the distinguished
irrelevant marker whatever the formatting call would do (so no formatter
is invoked), `executeCheck` maps that marker to the IRRELEVANT status with
no message, and that status posts as the string `IRRELEVANT`. -/
theorem irrelevant_shortcircuit_spec (chg : GChange) (language : List Char)
    (rx : List Char → Bool) (hrx : formatterRegex language = some rx)
    (hnone : ∀ p ∈ chg.Files, rx p.1 = false) :
    (∀ doFormat, checkChange doFormat (.ok chg) language = .error .irrelevant)
    ∧ (∀ doFormat,
        checkResultStatus (checkChange doFormat (.ok chg) language)
          = (.irrelevant, []))
    ∧ statusString .irrelevant = "IRRELEVANT".toList := by
  have hb := buildReq_nomatch language rx hrx chg.Files hnone
  have h1 : ∀ doFormat, checkChange doFormat (.ok chg) language = .error .irrelevant := by
    intro doFormat
    simp [checkChange, hb]
  exact ⟨h1, fun doFormat => by rw [h1 doFormat]; rfl, rfl⟩

/-- C7 witness: a change containing only `Readme.md`, checked by a go
checker, is irrelevant under two observably different formatter outcomes,
via `irrelevant_shortcircuit_spec`. -/
theorem irrelevant_shortcircuit_spec_instance :
    checkChange demoFormat (.ok demoChange) "go".toList = .error .irrelevant
    ∧ checkChange demoFormatErr (.ok demoChange) "go".toList = .error .irrelevant
    ∧ checkResultStatus (checkChange demoFormat (.ok demoChange) "go".toList)
        = (.irrelevant, [])
    ∧ statusString .irrelevant = "IRRELEVANT".toList := by
  have h := irrelevant_shortcircuit_spec demoChange "go".toList goMatch rfl (by decide)
  exact ⟨h.1 demoFormat, h.1 demoFormatErr, h.2.1 demoFormat, h.2.2⟩

/-! ## C9: RUNNING is always posted before the terminal status -/

/-- C9: in the sequence of status posts `executeCheck` attempts for one
pending check, every non-RUNNING (i.e. terminal) post for a checker UUID
is strictly preceded by a RUNNING post for that same UUID — whatever the
formatting and fetch outcomes, wherever posts start failing, and whichever
UUIDs the pending check references. -/
theorem running_before_terminal
    (doFormat : List File → Except (List Char) (List FormattedFile))
    (fetchRes : Except (List Char) GChange) (ok : Nat → Bool)
    (uuids : List (List Char)) (k i : Nat) (u : List Char) (st : Status)
    (hget : (execTrace doFormat fetchRes ok uuids k).get? i = some (u, st))
    (hst : st ≠ .running) :
    ∃ j, j < i
      ∧ (execTrace doFormat fetchRes ok uuids k).get? j = some (u, .running) := by
  induction uuids generalizing k i with
  | nil => simp [execTrace] at hget
  | cons u0 rest ih =>
    rw [execTrace] at hget
    cases i with
    | zero =>
      rw [List.get?_cons_zero] at hget
      simp only [Option.some.injEq, Prod.mk.injEq] at hget
      exact absurd hget.2.symm hst
    | succ n =>
      rw [List.get?_cons_succ] at hget
      by_cases hok : ok k = true
      · rw [if_pos hok] at hget
        rcases hterm : termStatusFor doFormat fetchRes u0 with _ | ⟨st0, m0⟩
        · rw [hterm] at hget
          simp at hget
        · rw [hterm] at hget
          simp only at hget
          cases n with
          | zero =>
            rw [List.get?_cons_zero] at hget
            simp only [Option.some.injEq, Prod.mk.injEq] at hget
            refine ⟨0, Nat.zero_lt_one, ?_⟩
            rw [execTrace, List.get?_cons_zero, hget.1]
          | succ m =>
            rw [List.get?_cons_succ] at hget
            by_cases hok2 : ok (k + 1) = true
            · rw [if_pos hok2] at hget
              obtain ⟨j, hj, hjget⟩ := ih (k + 2) m hget
              refine ⟨j + 2, by omega, ?_⟩
              rw [execTrace, List.get?_cons_succ, if_pos hok, hterm]
              simp only
              rw [List.get?_cons_succ, if_pos hok2]
              exact hjget
            · rw [if_neg hok2] at hget
              simp at hget
      · rw [if_neg hok] at hget
        simp at hget

/-- C9 witness: for a one-UUID pending check whose change turns out
irrelevant, the terminal post at position 1 is preceded by a RUNNING post,
via `running_before_terminal`. -/
theorem running_before_terminal_instance :
    ∃ j, j < 1
      ∧ (execTrace demoFormat (.ok demoChange) (fun _ => true) [demoUuid] 0).get? j
          = some (demoUuid, .running) :=
  running_before_terminal demoFormat (.ok demoChange) (fun _ => true)
    [demoUuid] 0 1 demoUuid .irrelevant rfl (by decide)

/-! ## C10: the commit-message adapter reads only the first file -/

/-- C10: for every non-empty batch, the commit-message adapter returns
exactly one result record, named after the batch's first file, and the
result does not depend on the additional files at all. -/
theorem commitMsgFormatter_first_only (f : File) (rest : List File) :
    (commitMsgFormat (f :: rest)).length = 1
    ∧ (commitMsgFormat (f :: rest)).map FormattedFile.Name = [f.Name]
    ∧ commitMsgFormat (f :: rest) = commitMsgFormat [f] := by
  have e : ∀ l : List File, commitMsgFormat (f :: l)
      = if checkCommitMessage f.Content ≠ [] then [⟨f.Name, [], checkCommitMessage f.Content⟩]
        else [⟨f.Name, f.Content, []⟩] := fun _ => rfl
  rw [e rest, e []]
  by_cases hc : checkCommitMessage f.Content = [] <;> simp [hc]

/-! ## C8: the bearer-token cache across refreshes -/

/-- C8 counterexample: starting from a successful initial fetch of
`demoToken`, a single failed refresh leaves the cache empty — the loop
stores the nil fetch result — so `Authenticate` returns the `no token`
error (while the loop does retry 2 seconds later), contrary to the claim
that the cached token is never cleared after the initial success. -/
theorem tokenCache_claim_counterexample :
    (tokenLoop (some demoToken, demoToken.ExpiresIn - 1) [none]).1 = none
    ∧ authenticate (tokenLoop (some demoToken, demoToken.ExpiresIn - 1) [none]).1
        = .error noTokenMsg
    ∧ (tokenLoop (some demoToken, demoToken.ExpiresIn - 1) [none]).2 = 2 :=
  ⟨rfl, rfl, rfl⟩

theorem tokenLoop_all_some (st : Option GcpToken × Int) (t0 : GcpToken)
    (h0 : st.1 = some t0) (rs : List (Option GcpToken))
    (h : ∀ r ∈ rs, r.isSome) :
    ∃ tk, (tokenLoop st rs).1 = some tk := by
  induction rs generalizing st t0 with
  | nil => exact ⟨t0, h0⟩
  | cons r rest ih =>
    cases r with
    | none =>
      have := h none (List.mem_cons_self _ _)
      simp at this
    | some t1 =>
      have hstep : tokenLoop st (some t1 :: rest)
          = tokenLoop (refreshStep st.1 (some t1)) rest := rfl
      rw [hstep]
      exact ih (refreshStep st.1 (some t1)) t1 rfl
        fun q hq => h q (List.mem_cons_of_mem _ hq)

/-- C8 amended: a successful refresh supersedes the cached token in place
(and schedules the next refresh after `expires_in - 1` seconds), and
`Authenticate` finds a token — never returning the `no token` error — as
long as every refresh so far has succeeded; but a failed refresh stores
the nil fetch result, clearing the cache (retrying after the fixed
2-second delay), and `Authenticate` then returns the `no token` error
until a later successful refresh. -/
theorem tokenCache_refresh_amended (t0 t : GcpToken) (cur : Option GcpToken)
    (rs : List (Option GcpToken)) :
    refreshStep cur (some t) = (some t, t.ExpiresIn - 1)
    ∧ refreshStep cur none = (none, 2)
    ∧ authenticate (some t) = .ok ("Bearer ".toList ++ t.AccessToken)
    ∧ authenticate none = .error noTokenMsg
    ∧ ((∀ r ∈ rs, r.isSome) →
        ∃ tk, (tokenLoop (some t0, t0.ExpiresIn - 1) rs).1 = some tk
          ∧ authenticate (some tk) = .ok ("Bearer ".toList ++ tk.AccessToken)) := by
  refine ⟨rfl, rfl, rfl, rfl, fun h => ?_⟩
  obtain ⟨tk, htk⟩ :=
    tokenLoop_all_some (some t0, t0.ExpiresIn - 1) t0 rfl rs h
  exact ⟨tk, htk, rfl⟩

/-- C8 amended witness: one failed refresh clears the cache, while a run
with only successful refreshes keeps `Authenticate` succeeding, via
`tokenCache_refresh_amended`. -/
theorem tokenCache_refresh_amended_instance :
    refreshStep (some demoToken) none = (none, 2)
    ∧ ∃ tk,
        (tokenLoop (some demoToken, demoToken.ExpiresIn - 1) [some demoToken2]).1
          = some tk
        ∧ authenticate (some tk) = .ok ("Bearer ".toList ++ tk.AccessToken) := by
  have h := tokenCache_refresh_amended demoToken demoToken2 (some demoToken)
    [some demoToken2]
  exact ⟨h.2.1, h.2.2.2.2 (by decide)⟩

end GerritLinter
